import Mathlib

/-!
Verification of the invoice text extractor (`parse_products_from_text` in
`server.py` and the text-scanning portion of `extract_invoice_data` in
`app.py`).

The extractor is a stateful line scanner: it splits the input on newlines,
strips each line, and pairs "description" lines (matched by the regular
expression `^(\d{4})\s+Series\s+(.+?)\s+([\d\s/]+)\s*x\s*([\d\s/]+)\s*-`
with the IGNORECASE flag) with the next line starting with `Frame:`, from
which it extracts `Width =` / `Height =` numbers and a trailing colour.

Modelling choices:
* Lines are lists of characters; character classes (`\d`, `\s`, `.`) are
  modelled at the ASCII level exactly as Python's `re` treats ASCII input.
* The regular-expression match is a faithful backtracking matcher over a
  token list: every repetition in the two patterns is a repetition of a
  single-character class, so Python's backtracking order is exactly
  "enumerate the possible consumption counts, longest first when greedy,
  shortest first when lazy, and try the continuation for each".
* Python's `float()` applied to a `[\d\.]+` capture is modelled exactly as
  a rational number; it fails (raises `ValueError`) exactly when the
  capture has more than one dot or no digit.  All numeric values appearing
  in the claims are decimal numbers exactly representable as floats, where
  the rational model and IEEE semantics agree.
* A raised exception is modelled by `Except.error ()`.
-/

/-- Whitespace characters recognised by Python's `str.strip` and by `\s`
in `re`, at the ASCII level. -/
def pySpace (c : Char) : Bool :=
  c == ' ' || c == '\t' || c == '\n' || c == '\r' || c == '\x0b' || c == '\x0c'

/-- Python `str.strip()`: drop whitespace from both ends. -/
def pyStrip (cs : List Char) : List Char :=
  ((cs.dropWhile pySpace).reverse.dropWhile pySpace).reverse

/-- Python `str.split('\n')`: split on every newline, keeping empty
segments; the empty string yields one empty segment. -/
def splitNL : List Char → List (List Char)
  | [] => [[]]
  | c :: cs =>
    if c == '\n' then [] :: splitNL cs
    else
      match splitNL cs with
      | [] => [[c]]
      | s :: ss => (c :: s) :: ss

/-- The class `\d` (ASCII digits). -/
def isDigitCh (c : Char) : Bool := c.isDigit

/-- The class `[\d\s/]` of the two dimension groups. -/
def dimChar (c : Char) : Bool := c.isDigit || pySpace c || c == '/'

/-- The class `[\d\.]` of the width/height captures. -/
def dotDigit (c : Char) : Bool := c.isDigit || c == '.'

/-- The class `.` (any character except a newline). -/
def anyNoNL (c : Char) : Bool := c != '\n'

/-- Character comparison, case-insensitively when `ci` is set (the
IGNORECASE flag of the description pattern). -/
def eqCI (ci : Bool) (a b : Char) : Bool :=
  if ci then a.toLower == b.toLower else a == b

/-- Consume the literal `s` from the front of `cs`, comparing
case-insensitively when `ci` is set; return the remainder on success. -/
def dropLit (ci : Bool) : List Char → List Char → Option (List Char)
  | [], cs => some cs
  | _ :: _, [] => none
  | p :: ps, c :: cs => if eqCI ci p c then dropLit ci ps cs else none

/-- One token of a regular expression in the restricted shape used by the
two patterns of the extractor: a literal, or a repetition of a
single-character class with a minimum count, an optional maximum count, a
greedy/lazy flag and an optional capture-group index. -/
inductive Tok where
  | lit (ci : Bool) (s : List Char)
  | rep (p : Char → Bool) (lo : Nat) (hi : Option Nat) (greedy : Bool)
      (grp : Option Nat)

/-- Length of the maximal run of characters satisfying `p` at the front. -/
def runLen (p : Char → Bool) : List Char → Nat
  | [] => 0
  | c :: cs => if p c then runLen p cs + 1 else 0

/-- The consumption counts a repetition tries, in backtracking order:
longest first when greedy, shortest first when lazy; empty when even the
maximal run is below the minimum. -/
def cands (lo m : Nat) (greedy : Bool) : List Nat :=
  if m < lo then []
  else if greedy then (List.range (m - lo + 1)).map (fun i => m - i)
  else (List.range (m - lo + 1)).map (fun i => lo + i)

/-- Maximal run length capped by the optional upper bound. -/
def capRun (p : Char → Bool) (hi : Option Nat) (cs : List Char) : Nat :=
  match hi with
  | some h => min (runLen p cs) h
  | none => runLen p cs

/-- Record a capture group: `gs.set i v` when the token carries index `i`. -/
def setG (gs : List (List Char)) : Option Nat → List Char → List (List Char)
  | none, _ => gs
  | some i, v => gs.set i v

/-- First successful result of `f` over a list of candidates. -/
def firstSome (f : Nat → Option α) : List Nat → Option α
  | [] => none
  | n :: ns =>
    match f n with
    | some r => some r
    | none => firstSome f ns

/-- Backtracking matcher for a token list, anchored at the start of `cs`
(`re.match` semantics: the match need not reach the end of the input).
Returns the capture groups of the first successful path in Python's
backtracking order. -/
def matchSeq : List Tok → List Char → List (List Char) →
    Option (List (List Char))
  | [], _, gs => some gs
  | Tok.lit ci s :: ts, cs, gs =>
    match dropLit ci s cs with
    | some rest => matchSeq ts rest gs
    | none => none
  | Tok.rep p lo hi greedy grp :: ts, cs, gs =>
    firstSome (fun n => matchSeq ts (cs.drop n) (setG gs grp (cs.take n)))
      (cands lo (capRun p hi cs) greedy)

/-- The description pattern
`^(\d{4})\s+Series\s+(.+?)\s+([\d\s/]+)\s*x\s*([\d\s/]+)\s*-`
compiled with `re.IGNORECASE`, as a token list. -/
def descToks : List Tok :=
  [ Tok.rep isDigitCh 4 (some 4) true (some 0),
    Tok.rep pySpace 1 none true none,
    Tok.lit true "Series".data,
    Tok.rep pySpace 1 none true none,
    Tok.rep anyNoNL 1 none false (some 1),
    Tok.rep pySpace 1 none true none,
    Tok.rep dimChar 1 none true (some 2),
    Tok.rep pySpace 0 none true none,
    Tok.lit true "x".data,
    Tok.rep pySpace 0 none true none,
    Tok.rep dimChar 1 none true (some 3),
    Tok.rep pySpace 0 none true none,
    Tok.lit true "-".data ]

/-- `desc_pattern.match(line)`, returning the two captures the code uses:
group 1 (the four digits) and group 2 (the window-style phrase). -/
def descMatch (cs : List Char) : Option (List Char × List Char) :=
  match matchSeq descToks cs [[], [], [], []] with
  | some gs => some (gs.getD 0 [], gs.getD 1 [])
  | none => none

/-- The capture `([\d\.]+)` after optional whitespace: skip the maximal
whitespace run, then take the maximal nonempty run of digits and dots.
(The `\s*` between the literal and the capture cannot usefully backtrack:
giving back a whitespace character leaves a character outside `[\d\.]` at
the front, so only the maximal skip can succeed.) -/
def numTok (cs : List Char) : Option (List Char) :=
  let ds := (cs.dropWhile pySpace).takeWhile dotDigit
  if ds.isEmpty then none else some ds

/-- `re.search(lit + r'\s*([\d\.]+)', line)`: scan positions left to
right; at each occurrence of the literal try the whitespace skip and the
numeric capture, and on failure resume the scan one character further. -/
def searchNum (lit : List Char) : List Char → Option (List Char)
  | [] =>
    match dropLit false lit [] with
    | some rest => numTok rest
    | none => none
  | c :: cs =>
    match dropLit false lit (c :: cs) with
    | some rest =>
      match numTok rest with
      | some g => some g
      | none => searchNum lit cs
    | none => searchNum lit cs

/-- Value of a digit string (most significant digit first). -/
def natOfDigits (cs : List Char) : Nat :=
  List.foldl (fun n c => n * 10 + (c.toNat - '0'.toNat)) 0 cs

/-- Python `float(s)` restricted to the domain reachable in the extractor:
`s` is a nonempty capture of `[\d\.]+` (only digits and dots).  On that
domain `float` raises `ValueError` exactly when `s` has more than one dot
or contains no digit; otherwise the value is the decimal number written,
modelled exactly as a rational. -/
def parseFloat (cs : List Char) : Option ℚ :=
  if cs.count '.' > 1 then none
  else if !cs.any isDigitCh then none
  else
    let fracPart := (cs.dropWhile (fun c => c != '.')).drop 1
    some (mkRat (natOfDigits (cs.filter (fun c => c != '.')))
      (10 ^ fracPart.length))

/-- One emitted product record (the dictionary appended to `products`). -/
structure Product where
  manufacturer : String
  frameColor : String
  seriesId : String
  windowStyle : String
  width : Option ℚ
  height : Option ℚ
deriving DecidableEq

/-- The literal searched for by the width pattern `Width =\s*([\d\.]+)`. -/
def widthLit : List Char := "Width =".data

/-- The literal searched for by the height pattern `Height =\s*([\d\.]+)`. -/
def heightLit : List Char := "Height =".data

/-- The literal tested by `line.startswith('Frame:')`. -/
def frameLit : List Char := "Frame:".data

/-- Python `line.split(',')[-1]`: the segment after the last comma (the
whole line when there is no comma). -/
def afterLastComma (cs : List Char) : List Char :=
  (cs.reverse.takeWhile (fun c => c != ',')).reverse

/-- `float(m.group(1)) if m else None` for one of the two numeric fields:
`.ok none` when the pattern is absent, `.ok (some q)` on a parseable
capture, `.error ()` when `float` raises. -/
def numField (lit : List Char) (l : List Char) : Except Unit (Option ℚ) :=
  match searchNum lit l with
  | some g =>
    match parseFloat g with
    | some q => Except.ok (some q)
    | none => Except.error ()
  | none => Except.ok none

/-- The scan loop of `parse_products_from_text` (`server.py`): one pass
over the stripped lines with a single `pending` slot holding the
`Series ID` and `Window Style` strings of the last unconsumed description
match. -/
def scanServer : List (List Char) → Option (String × String) →
    Except Unit (List Product)
  | [], _ => Except.ok []
  | l :: ls, pending =>
    if l.isEmpty then scanServer ls pending
    else
      match descMatch l with
      | some g =>
        scanServer ls
          (some (String.mk (pyStrip g.1) ++ " Series", String.mk (pyStrip g.2)))
      | none =>
        match pending with
        | some pd =>
          if List.isPrefixOf frameLit l then
            match numField widthLit l, numField heightLit l with
            | Except.ok w, Except.ok h =>
              match scanServer ls none with
              | Except.ok rest =>
                Except.ok
                  (⟨"CWS", String.mk (pyStrip (afterLastComma l)),
                    pd.1, pd.2, w, h⟩ :: rest)
              | Except.error e => Except.error e
            | Except.error e, _ => Except.error e
            | _, Except.error e => Except.error e
          else scanServer ls pending
        | none => scanServer ls pending

/-- The normalisation step shared by both call sites:
`[line.strip() for line in text.split('\n')]`. -/
def strippedLines (t : String) : List (List Char) :=
  (splitNL t.data).map pyStrip

/-- `parse_products_from_text` from `server.py`: normalise, then scan with
an initially empty pending slot.  `Except.error ()` marks the one way the
Python function can raise (a `ValueError` from `float`). -/
def parse_products_from_text (t : String) : Except Unit (List Product) :=
  scanServer (strippedLines t) none

instance decEqExcept [DecidableEq ε] [DecidableEq α] : DecidableEq (Except ε α) := fun a b =>
  match a, b with
  | Except.ok x, Except.ok y =>
    if h : x = y then Decidable.isTrue (by rw [h])
    else Decidable.isFalse (by intro hc; cases hc; exact h rfl)
  | Except.error x, Except.error y =>
    if h : x = y then Decidable.isTrue (by rw [h])
    else Decidable.isFalse (by intro hc; cases hc; exact h rfl)
  | Except.ok _, Except.error _ => Decidable.isFalse (by intro hc; cases hc)
  | Except.error _, Except.ok _ => Decidable.isFalse (by intro hc; cases hc)

/-- The scan loop of the text-scanning portion of `extract_invoice_data`
(`app.py`), translated separately from its own source lines: the same
single-pass pairing of description matches with the next `Frame:` line. -/
def scanApp : List (List Char) → Option (String × String) →
    Except Unit (List Product)
  | [], _ => Except.ok []
  | l :: ls, pendingA =>
    if l.isEmpty then scanApp ls pendingA
    else
      match descMatch l with
      | some g =>
        scanApp ls
          (some (String.mk (pyStrip g.1) ++ " Series", String.mk (pyStrip g.2)))
      | none =>
        match pendingA with
        | some pd =>
          if List.isPrefixOf frameLit l then
            match numField widthLit l, numField heightLit l with
            | Except.ok w, Except.ok h =>
              match scanApp ls none with
              | Except.ok rest =>
                Except.ok
                  (⟨"CWS", String.mk (pyStrip (afterLastComma l)),
                    pd.1, pd.2, w, h⟩ :: rest)
              | Except.error e => Except.error e
            | Except.error e, _ => Except.error e
            | _, Except.error e => Except.error e
          else scanApp ls pendingA
        | none => scanApp ls pendingA

/-- The text-scanning portion of `extract_invoice_data` (`app.py`), as a
function of the text returned by the external PDF-to-text collaborator. -/
def extract_invoice_data_scan (t : String) : Except Unit (List Product) :=
  scanApp (strippedLines t) none

/-- Substring test: `pat` occurs contiguously somewhere in the list. -/
def hasSub (pat : List Char) : List Char → Bool
  | [] => pat.isEmpty
  | c :: cs => List.isPrefixOf pat (c :: cs) || hasSub pat cs

/-- A stripped line that matches the description pattern. -/
def descL (l : List Char) : Bool := (descMatch l).isSome

/-- A stripped line the scan treats as a frame line
(the `line.startswith('Frame:')` test). -/
def frameL (l : List Char) : Bool := List.isPrefixOf frameLit l

/-- A line that is neither a description match nor a frame line: the scan
skips it and leaves the pending slot unchanged. -/
def neutralL (l : List Char) : Bool := !descL l && !frameL l

/-- Index shift used when peeling the head line off an input. -/
def bump (q : Nat × Nat) : Nat × Nat := (q.1 + 1, q.2 + 1)

/-- Declarative pairing condition: the line at index `j` is a description
match, the line at index `f` is a frame line, `j` precedes `f`, and every
line strictly between them is neutral — no intervening description match
(which would overwrite the pending slot) and no intervening frame line
(which would already have consumed it). -/
def goodPair (ls : List (List Char)) (j f : Nat) : Prop :=
  j < f ∧ f < ls.length ∧ descL (ls.getD j []) = true ∧
    frameL (ls.getD f []) = true ∧
    ∀ m < f, j < m → neutralL (ls.getD m []) = true

instance (ls : List (List Char)) (j f : Nat) : Decidable (goodPair ls j f) := by
  unfold goodPair
  infer_instance

/-- The pairing whose frame line sits at index `f`, when one exists: the
unique description index `j < f` with `goodPair ls j f`. -/
def gpEntry (ls : List (List Char)) (f : Nat) : Option (Nat × Nat) :=
  ((List.range f).find? (fun j => decide (goodPair ls j f))).map (fun j => (j, f))

/-- All pairings of an input, in emission order (ordered by frame index;
for each frame index at most one description index satisfies
`goodPair`). -/
def goodPairs (ls : List (List Char)) : List (Nat × Nat) :=
  (List.range ls.length).filterMap (gpEntry ls)

/-- Index of the first non-neutral line, when that line is a frame line:
exactly the situation in which an initial pending description would be
consumed. -/
def pendFrame : List (List Char) → Option Nat
  | [] => none
  | l :: ls =>
    if neutralL l then (pendFrame ls).map (· + 1)
    else if frameL l then some 0
    else none

/-- The pending slot's value after the scan has processed `ls` starting
from `p`: mirrors exactly the `pending` updates of the source loop
(description match overwrites, frame line with a pending clears, all other
lines leave it unchanged). -/
def pendingAfter : List (List Char) → Option (String × String) →
    Option (String × String)
  | [], p => p
  | l :: ls, p =>
    if l.isEmpty then pendingAfter ls p
    else
      match descMatch l with
      | some g =>
        pendingAfter ls
          (some (String.mk (pyStrip g.1) ++ " Series", String.mk (pyStrip g.2)))
      | none =>
        match p with
        | some _ =>
          if List.isPrefixOf frameLit l then pendingAfter ls none
          else pendingAfter ls p
        | none => pendingAfter ls p

/-- A record together with the index pair it was emitted from: series and
style come from the captures of the description line at `jf.1`, the
colour, width and height from the frame line at `jf.2`. -/
def lineR (ls : List (List Char)) (r : Product) (jf : Nat × Nat) : Prop :=
  ∃ g1 g2 w h,
    descMatch (ls.getD jf.1 []) = some (g1, g2) ∧
    frameL (ls.getD jf.2 []) = true ∧
    numField widthLit (ls.getD jf.2 []) = Except.ok w ∧
    numField heightLit (ls.getD jf.2 []) = Except.ok h ∧
    r = ⟨"CWS", String.mk (pyStrip (afterLastComma (ls.getD jf.2 []))),
      String.mk (pyStrip g1) ++ " Series", String.mk (pyStrip g2), w, h⟩

/-- A record emitted for an initial pending description `pd`, consumed by
the frame line at index `f`. -/
def pendR (ls : List (List Char)) (pd : String × String) (f : Nat)
    (r : Product) : Prop :=
  ∃ w h,
    frameL (ls.getD f []) = true ∧
    numField widthLit (ls.getD f []) = Except.ok w ∧
    numField heightLit (ls.getD f []) = Except.ok h ∧
    r = ⟨"CWS", String.mk (pyStrip (afterLastComma (ls.getD f []))),
      pd.1, pd.2, w, h⟩

lemma scanServer_nil (p : Option (String × String)) :
    scanServer [] p = Except.ok [] := rfl

lemma scanServer_cons (l : List Char) (ls : List (List Char))
    (p : Option (String × String)) :
    scanServer (l :: ls) p =
      if l.isEmpty then scanServer ls p
      else
        match descMatch l with
        | some g =>
          scanServer ls
            (some (String.mk (pyStrip g.1) ++ " Series", String.mk (pyStrip g.2)))
        | none =>
          match p with
          | some pd =>
            if List.isPrefixOf frameLit l then
              match numField widthLit l, numField heightLit l with
              | Except.ok w, Except.ok h =>
                match scanServer ls none with
                | Except.ok rest =>
                  Except.ok
                    (⟨"CWS", String.mk (pyStrip (afterLastComma l)),
                      pd.1, pd.2, w, h⟩ :: rest)
                | Except.error e => Except.error e
              | Except.error e, _ => Except.error e
              | _, Except.error e => Except.error e
            else scanServer ls p
          | none => scanServer ls p := rfl

/-! ### Basic lemmas about the matchers -/

lemma descMatch_nil : descMatch [] = none := rfl

lemma descMatch_isEmpty {l : List Char} {g : List Char × List Char}
    (h : descMatch l = some g) : l.isEmpty = false := by
  cases l with
  | nil => rw [descMatch_nil] at h; cases h
  | cons c cs => rfl

lemma notDigit_descMatch {c : Char} (cs : List Char) (h : isDigitCh c = false) :
    descMatch (c :: cs) = none := by
  have h1 : runLen isDigitCh (c :: cs) = 0 := by simp [runLen, h]
  have h2 : capRun isDigitCh (some 4) (c :: cs) = 0 := by simp [capRun, h1]
  have h3 : cands 4 0 true = [] := rfl
  simp [descMatch, descToks, matchSeq, h2, h3, firstSome]

lemma frame_cons {l : List Char} (h : List.isPrefixOf frameLit l = true) :
    ∃ cs, l = 'F' :: cs := by
  cases l with
  | nil => cases h
  | cons c cs =>
    refine ⟨cs, ?_⟩
    have e : frameLit = 'F' :: "rame:".data := rfl
    rw [e] at h
    simp only [List.isPrefixOf, Bool.and_eq_true, beq_iff_eq] at h
    rw [h.1]

lemma frame_isEmpty {l : List Char} (h : List.isPrefixOf frameLit l = true) :
    l.isEmpty = false := by
  obtain ⟨cs, rfl⟩ := frame_cons h
  rfl

lemma descMatch_frame {l : List Char} (h : List.isPrefixOf frameLit l = true) :
    descMatch l = none := by
  obtain ⟨cs, rfl⟩ := frame_cons h
  exact notDigit_descMatch cs rfl

/-! ### Step lemmas for the scan loop -/

lemma scan_desc (l : List Char) (ls : List (List Char))
    (p : Option (String × String)) {g1 g2 : List Char}
    (hd : descMatch l = some (g1, g2)) :
    scanServer (l :: ls) p =
      scanServer ls
        (some (String.mk (pyStrip g1) ++ " Series", String.mk (pyStrip g2))) := by
  have he : l.isEmpty = false := descMatch_isEmpty hd
  simp [scanServer, he, hd]

lemma scan_frame (l : List Char) (ls : List (List Char)) (pd : String × String)
    (hfp : List.isPrefixOf frameLit l = true) {w h : Option ℚ}
    (hw : numField widthLit l = Except.ok w)
    (hh : numField heightLit l = Except.ok h) :
    scanServer (l :: ls) (some pd) =
      match scanServer ls none with
      | Except.ok rest =>
        Except.ok (⟨"CWS", String.mk (pyStrip (afterLastComma l)),
          pd.1, pd.2, w, h⟩ :: rest)
      | Except.error e => Except.error e := by
  have he : l.isEmpty = false := frame_isEmpty hfp
  have hdm : descMatch l = none := descMatch_frame hfp
  simp [scanServer, he, hdm, hfp, hw, hh]

lemma scan_two {dl fl g1 g2 : List Char} {w h : Option ℚ}
    (hd : descMatch dl = some (g1, g2))
    (hfp : List.isPrefixOf frameLit fl = true)
    (hw : numField widthLit fl = Except.ok w)
    (hh : numField heightLit fl = Except.ok h) :
    scanServer [dl, fl] none =
      Except.ok [⟨"CWS", String.mk (pyStrip (afterLastComma fl)),
        String.mk (pyStrip g1) ++ " Series", String.mk (pyStrip g2), w, h⟩] := by
  rw [scan_desc dl [fl] none hd, scan_frame fl [] _ hfp hw hh]
  rfl

/-! ### Claim theorems -/

/-- C2: for an input whose stripped lines are one description-matching line
followed by one `Frame:` line with parseable `Width =` and `Height =`
numbers, exactly one record is produced: Manufacturer `"CWS"`, Frame Color
the trimmed last comma-segment of the frame line, Series ID the captured
digits plus `" Series"`, Window Style the trimmed captured phrase, and
Width/Height the parsed numbers. -/
theorem extractor_single_pair (t : String) (dl fl g1 g2 gw gh : List Char)
    (qw qh : ℚ)
    (hsplit : strippedLines t = [dl, fl])
    (hd : descMatch dl = some (g1, g2))
    (hfp : List.isPrefixOf frameLit fl = true)
    (hw : searchNum widthLit fl = some gw) (hwq : parseFloat gw = some qw)
    (hh : searchNum heightLit fl = some gh) (hhq : parseFloat gh = some qh) :
    parse_products_from_text t =
      Except.ok [⟨"CWS", String.mk (pyStrip (afterLastComma fl)),
        String.mk (pyStrip g1) ++ " Series", String.mk (pyStrip g2),
        some qw, some qh⟩] := by
  have hwf : numField widthLit fl = Except.ok (some qw) := by
    simp [numField, hw, hwq]
  have hhf : numField heightLit fl = Except.ok (some qh) := by
    simp [numField, hh, hhq]
  unfold parse_products_from_text
  rw [hsplit, scan_two hd hfp hwf hhf]

/-- Witness for C2: the spec's example pair yields exactly the record
`{Manufacturer: "CWS", Frame Color: "Bronze", Series ID: "7300 Series",
Window Style: "Direct Set Half Round", Width: 73.0, Height: 36.5}`. -/
theorem extractor_single_pair_witness :
    parse_products_from_text
      "7300 Series Direct Set Half Round 73 x 36 1/2 - FLANGE\nFrame: Width = 73, Height = 36.5, Radius = 36.5, Bronze"
      = Except.ok [⟨"CWS", "Bronze", "7300 Series", "Direct Set Half Round",
          some (mkRat 73 1), some (mkRat 73 2)⟩] := by
  have h := extractor_single_pair
    "7300 Series Direct Set Half Round 73 x 36 1/2 - FLANGE\nFrame: Width = 73, Height = 36.5, Radius = 36.5, Bronze"
    "7300 Series Direct Set Half Round 73 x 36 1/2 - FLANGE".data
    "Frame: Width = 73, Height = 36.5, Radius = 36.5, Bronze".data
    "7300".data "Direct Set Half Round".data "73".data "36.5".data
    (mkRat 73 1) (mkRat 73 2)
    (by decide) (by decide) (by decide) (by decide) (by decide) (by decide)
    (by decide)
  exact h.trans (by decide)

/-- C4: for an input whose stripped lines are two description-matching
lines followed by one `Frame:` line, exactly one record is produced, and
its Series ID and Window Style come from the second description line; the
first pending description is silently replaced. -/
theorem second_description_wins (t : String)
    (d1 d2 fl a1 a2 b1 b2 gw gh : List Char) (qw qh : ℚ)
    (hsplit : strippedLines t = [d1, d2, fl])
    (hd1 : descMatch d1 = some (a1, a2))
    (hd2 : descMatch d2 = some (b1, b2))
    (hfp : List.isPrefixOf frameLit fl = true)
    (hw : searchNum widthLit fl = some gw) (hwq : parseFloat gw = some qw)
    (hh : searchNum heightLit fl = some gh) (hhq : parseFloat gh = some qh) :
    parse_products_from_text t =
      Except.ok [⟨"CWS", String.mk (pyStrip (afterLastComma fl)),
        String.mk (pyStrip b1) ++ " Series", String.mk (pyStrip b2),
        some qw, some qh⟩] := by
  have hwf : numField widthLit fl = Except.ok (some qw) := by
    simp [numField, hw, hwq]
  have hhf : numField heightLit fl = Except.ok (some qh) := by
    simp [numField, hh, hhq]
  unfold parse_products_from_text
  rw [hsplit, scan_desc d1 [d2, fl] none hd1, scan_desc d2 [fl] _ hd2,
    scan_frame fl [] _ hfp hwf hhf]
  rfl

/-- Witness for C4: two consecutive description lines and one frame line
yield one record carrying the second description's series and style. -/
theorem second_description_wins_witness :
    parse_products_from_text
      "7300 Series Direct Set Half Round 73 x 36 1/2 - FLANGE\n8500 Series Casement 24 x 48 - NAIL FIN\nFrame: Width = 24, Height = 48, White"
      = Except.ok [⟨"CWS", "White", "8500 Series", "Casement",
          some (mkRat 24 1), some (mkRat 48 1)⟩] := by
  have h := second_description_wins
    "7300 Series Direct Set Half Round 73 x 36 1/2 - FLANGE\n8500 Series Casement 24 x 48 - NAIL FIN\nFrame: Width = 24, Height = 48, White"
    "7300 Series Direct Set Half Round 73 x 36 1/2 - FLANGE".data
    "8500 Series Casement 24 x 48 - NAIL FIN".data
    "Frame: Width = 24, Height = 48, White".data
    "7300".data "Direct Set Half Round".data "8500".data "Casement".data
    "24".data "48".data (mkRat 24 1) (mkRat 48 1)
    (by decide) (by decide) (by decide) (by decide) (by decide) (by decide)
    (by decide) (by decide)
  exact h.trans (by decide)

/-! ### Conditional unfold lemmas for one scan step -/

lemma scan_step_empty (l : List Char) (ls : List (List Char))
    (p : Option (String × String)) (he : l.isEmpty = true) :
    scanServer (l :: ls) p = scanServer ls p := by
  simp [scanServer_cons, he]

lemma scan_step_skip (l : List Char) (ls : List (List Char))
    (he : l.isEmpty = false) (hm : descMatch l = none) :
    scanServer (l :: ls) none = scanServer ls none := by
  simp [scanServer_cons, he, hm]

lemma scan_step_noframe (l : List Char) (ls : List (List Char))
    (pd : String × String) (he : l.isEmpty = false) (hm : descMatch l = none)
    (hfp : List.isPrefixOf frameLit l = false) :
    scanServer (l :: ls) (some pd) = scanServer ls (some pd) := by
  simp [scanServer_cons, he, hm, hfp]

lemma scan_step_frame (l : List Char) (ls : List (List Char))
    (pd : String × String) (he : l.isEmpty = false) (hm : descMatch l = none)
    (hfp : List.isPrefixOf frameLit l = true) :
    scanServer (l :: ls) (some pd) =
      match numField widthLit l with
      | Except.error e => Except.error e
      | Except.ok w =>
        match numField heightLit l with
        | Except.error e => Except.error e
        | Except.ok hv =>
          match scanServer ls none with
          | Except.ok rest =>
            Except.ok
              (⟨"CWS", String.mk (pyStrip (afterLastComma l)),
                pd.1, pd.2, w, hv⟩ :: rest)
          | Except.error e => Except.error e := by
  rw [scanServer_cons]
  simp only [he, Bool.false_eq_true, if_false, hm, hfp, if_true]
  cases numField widthLit l <;> cases numField heightLit l <;> rfl

/-! ### Invariant lemmas proved by induction over the scan -/

lemma scan_count (ls : List (List Char)) (p : Option (String × String))
    (ps : List Product) (h : scanServer ls p = Except.ok ps) :
    ps.length ≤ ls.countP (fun l => (descMatch l).isSome) +
      (if p.isSome then 1 else 0) := by
  induction ls generalizing p ps with
  | nil =>
    rw [scanServer_nil] at h
    simp only [Except.ok.injEq] at h
    simp [← h]
  | cons l ls ih =>
    by_cases he : l.isEmpty = true
    · have hl : l = [] := by
        cases l with
        | nil => rfl
        | cons a as => simp [List.isEmpty] at he
      rw [scan_step_empty l ls p he] at h
      have := ih p ps h
      simpa [List.countP_cons, hl, descMatch_nil] using this
    · simp only [Bool.not_eq_true] at he
      cases hm : descMatch l with
      | some g =>
        obtain ⟨g1, g2⟩ := g
        rw [scan_desc l ls p hm] at h
        have := ih _ ps h
        simp only [Option.isSome_some, if_true] at this
        simp only [List.countP_cons, hm, Option.isSome_some, if_true]
        omega
      | none =>
        cases p with
        | none =>
          rw [scan_step_skip l ls he hm] at h
          have := ih none ps h
          simp only [Option.isSome_none, Bool.false_eq_true, if_false] at this ⊢
          simp only [List.countP_cons, hm, Option.isSome_none,
            Bool.false_eq_true, if_false]
          omega
        | some pd =>
          cases hfp : List.isPrefixOf frameLit l with
          | false =>
            rw [scan_step_noframe l ls pd he hm hfp] at h
            have := ih (some pd) ps h
            simp only [List.countP_cons, hm, Option.isSome_none,
              Bool.false_eq_true, if_false]
            omega
          | true =>
            rw [scan_step_frame l ls pd he hm hfp] at h
            cases hnw : numField widthLit l with
            | error e => rw [hnw] at h; cases h
            | ok w =>
              rw [hnw] at h
              cases hnh : numField heightLit l with
              | error e => rw [hnh] at h; cases h
              | ok hv =>
                rw [hnh] at h
                cases hrec : scanServer ls none with
                | error e => rw [hrec] at h; cases h
                | ok rest =>
                  rw [hrec] at h
                  have hps : ps = _ :: rest := (Except.ok.inj h).symm
                  have := ih none rest hrec
                  simp only [Option.isSome_none, Bool.false_eq_true,
                    if_false] at this
                  rw [hps]
                  simp only [List.countP_cons, hm, Option.isSome_none,
                    Bool.false_eq_true, if_false, List.length_cons,
                    Option.isSome_some, if_true]
                  omega

lemma scan_nodesc (ls : List (List Char))
    (h : ∀ l ∈ ls, descMatch l = none) :
    scanServer ls none = Except.ok [] := by
  induction ls with
  | nil => rfl
  | cons l ls ih =>
    have hl := h l (by simp)
    have hrest : ∀ x ∈ ls, descMatch x = none := fun x hx => h x (by simp [hx])
    by_cases he : l.isEmpty = true
    · rw [scan_step_empty l ls none he]; exact ih hrest
    · simp only [Bool.not_eq_true] at he
      rw [scan_step_skip l ls he hl]; exact ih hrest

lemma scan_color (ls : List (List Char)) (p : Option (String × String))
    (ps : List Product) (h : scanServer ls p = Except.ok ps) :
    ∀ r ∈ ps, ∃ l ∈ ls, List.isPrefixOf frameLit l = true ∧
      r.frameColor = String.mk (pyStrip (afterLastComma l)) := by
  induction ls generalizing p ps with
  | nil =>
    rw [scanServer_nil] at h
    simp only [Except.ok.injEq] at h
    simp [← h]
  | cons l ls ih =>
    by_cases he : l.isEmpty = true
    · rw [scan_step_empty l ls p he] at h
      intro r hr
      obtain ⟨l', hl', hprop⟩ := ih p ps h r hr
      exact ⟨l', by simp [hl'], hprop⟩
    · simp only [Bool.not_eq_true] at he
      cases hm : descMatch l with
      | some g =>
        obtain ⟨g1, g2⟩ := g
        rw [scan_desc l ls p hm] at h
        intro r hr
        obtain ⟨l', hl', hprop⟩ := ih _ ps h r hr
        exact ⟨l', by simp [hl'], hprop⟩
      | none =>
        cases p with
        | none =>
          rw [scan_step_skip l ls he hm] at h
          intro r hr
          obtain ⟨l', hl', hprop⟩ := ih none ps h r hr
          exact ⟨l', by simp [hl'], hprop⟩
        | some pd =>
          cases hfp : List.isPrefixOf frameLit l with
          | false =>
            rw [scan_step_noframe l ls pd he hm hfp] at h
            intro r hr
            obtain ⟨l', hl', hprop⟩ := ih (some pd) ps h r hr
            exact ⟨l', by simp [hl'], hprop⟩
          | true =>
            rw [scan_step_frame l ls pd he hm hfp] at h
            cases hnw : numField widthLit l with
            | error e => rw [hnw] at h; cases h
            | ok w =>
              rw [hnw] at h
              cases hnh : numField heightLit l with
              | error e => rw [hnh] at h; cases h
              | ok hv =>
                rw [hnh] at h
                cases hrec : scanServer ls none with
                | error e => rw [hrec] at h; cases h
                | ok rest =>
                  rw [hrec] at h
                  have hps : ps = _ :: rest := (Except.ok.inj h).symm
                  intro r hr
                  rw [hps] at hr
                  cases hr with
                  | head => exact ⟨l, by simp, hfp, rfl⟩
                  | tail _ hr2 =>
                    obtain ⟨l', hl', hprop⟩ := ih none rest hrec r hr2
                    exact ⟨l', by simp [hl'], hprop⟩

/-! ### Absent-literal lemmas for the width/height searches -/

lemma dropLit_eq_none {lit : List Char} (xs : List Char)
    (h : List.isPrefixOf lit xs = false) : dropLit false lit xs = none := by
  induction lit generalizing xs with
  | nil => simp [List.isPrefixOf] at h
  | cons p ps ih =>
    cases xs with
    | nil => rfl
    | cons c cs =>
      simp only [List.isPrefixOf] at h
      cases hpc : (p == c) with
      | false =>
        simp [dropLit, eqCI, hpc]
      | true =>
        rw [hpc, Bool.true_and] at h
        simp [dropLit, eqCI, hpc, ih cs h]

lemma searchNum_eq_none {lit : List Char} (cs : List Char)
    (h : hasSub lit cs = false) : searchNum lit cs = none := by
  induction cs with
  | nil =>
    cases lit with
    | nil => simp [hasSub] at h
    | cons p ps => rfl
  | cons c cs ih =>
    simp only [hasSub, Bool.or_eq_false_iff] at h
    simp [searchNum, dropLit_eq_none _ h.1, ih h.2]

/-! ### Equivalence of the two duplicated scans -/

lemma scanApp_eq_scanServer (ls : List (List Char))
    (p : Option (String × String)) :
    scanApp ls p = scanServer ls p := by
  induction ls generalizing p with
  | nil => rfl
  | cons l ls ih =>
    simp only [scanApp, scanServer, ih]

/-! ### The declarative pairing: basic facts -/

lemma neutralL_iff {l : List Char} :
    neutralL l = true ↔ descL l = false ∧ frameL l = false := by
  simp [neutralL]

lemma frameL_descL {l : List Char} (h : frameL l = true) : descL l = false := by
  have := descMatch_frame (l := l) (by simpa [frameL] using h)
  simp [descL, this]

lemma descL_frameL {l : List Char} (h : descL l = true) : frameL l = false := by
  cases hf : frameL l with
  | false => rfl
  | true => rw [frameL_descL hf] at h; cases h

lemma pendFrame_eq_some {ls : List (List Char)} {f : Nat} :
    pendFrame ls = some f ↔
      f < ls.length ∧ frameL (ls.getD f []) = true ∧
        ∀ m < f, neutralL (ls.getD m []) = true := by
  induction ls generalizing f with
  | nil => simp [pendFrame]
  | cons l ls ih =>
    by_cases hn : neutralL l = true
    · rw [pendFrame, if_pos hn]
      cases f with
      | zero =>
        have hfl : frameL l = false := (neutralL_iff.mp hn).2
        simp [hfl, Option.map_eq_some']
      | succ f =>
        simp only [Option.map_eq_some', List.getD_cons_succ, List.length_cons]
        constructor
        · rintro ⟨a, ha, haf⟩
          have : a = f := by omega
          subst this
          obtain ⟨h1, h2, h3⟩ := ih.mp ha
          refine ⟨by omega, h2, ?_⟩
          intro m hm
          cases m with
          | zero => simpa using hn
          | succ m => simpa [List.getD_cons_succ] using h3 m (by omega)
        · rintro ⟨h1, h2, h3⟩
          refine ⟨f, ih.mpr ⟨by omega, h2, ?_⟩, rfl⟩
          intro m hm
          simpa [List.getD_cons_succ] using h3 (m + 1) (by omega)
    · have hn' : neutralL l = false := by
        cases hb : neutralL l with
        | false => rfl
        | true => exact absurd hb hn
      by_cases hf : frameL l = true
      · rw [pendFrame, if_neg (by simp [hn']), if_pos hf]
        cases f with
        | zero => simp [hf]
        | succ f =>
          simp only [List.length_cons, List.getD_cons_succ]
          constructor
          · intro hc; cases hc
          · rintro ⟨-, -, h3⟩
            have := h3 0 (by omega)
            rw [List.getD_cons_zero] at this
            rw [this] at hn'; cases hn'
      · have hf' : frameL l = false := by
          cases hb : frameL l with
          | false => rfl
          | true => exact absurd hb hf
        rw [pendFrame, if_neg (by simp [hn']), if_neg (by simp [hf'])]
        cases f with
        | zero => simp [hf']
        | succ f =>
          simp only [List.length_cons, List.getD_cons_succ]
          constructor
          · intro hc; cases hc
          · rintro ⟨-, -, h3⟩
            have := h3 0 (by omega)
            rw [List.getD_cons_zero] at this
            rw [this] at hn'; cases hn'

lemma goodPair_succ_succ {l : List Char} {ls : List (List Char)} {j f : Nat} :
    goodPair (l :: ls) (j + 1) (f + 1) ↔ goodPair ls j f := by
  unfold goodPair
  simp only [List.getD_cons_succ, List.length_cons]
  constructor
  · rintro ⟨h1, h2, h3, h4, h5⟩
    refine ⟨by omega, by omega, h3, h4, ?_⟩
    intro m hm hjm
    simpa [List.getD_cons_succ] using h5 (m + 1) (by omega) (by omega)
  · rintro ⟨h1, h2, h3, h4, h5⟩
    refine ⟨by omega, by omega, h3, h4, ?_⟩
    intro m hm hjm
    cases m with
    | zero => omega
    | succ m =>
      simpa [List.getD_cons_succ] using h5 m (by omega) (by omega)

lemma goodPair_zero {l : List Char} {ls : List (List Char)} {f : Nat}
    (hd : descL l = true) :
    goodPair (l :: ls) 0 (f + 1) ↔ pendFrame ls = some f := by
  rw [pendFrame_eq_some]
  unfold goodPair
  simp only [List.getD_cons_zero, List.getD_cons_succ, List.length_cons, hd]
  constructor
  · rintro ⟨-, h2, -, h4, h5⟩
    refine ⟨by omega, h4, ?_⟩
    intro m hm
    simpa [List.getD_cons_succ] using h5 (m + 1) (by omega) (by omega)
  · rintro ⟨h1, h2, h3⟩
    refine ⟨by omega, by omega, by trivial, h2, ?_⟩
    intro m hm h0m
    cases m with
    | zero => omega
    | succ m => simpa [List.getD_cons_succ] using h3 m (by omega)

lemma find?_goodPair_none {ls : List (List Char)} {f : Nat}
    (h : ∀ j < f, neutralL (ls.getD j []) = true) :
    (List.range f).find? (fun j => decide (goodPair ls j f)) = none := by
  rw [List.find?_eq_none]
  intro j hj
  rw [List.mem_range] at hj
  simp only [decide_eq_true_eq]
  intro hgp
  have hd := hgp.2.2.1
  rw [(neutralL_iff.mp (h j hj)).1] at hd
  cases hd

lemma gpEntry_zero (ls : List (List Char)) : gpEntry ls 0 = none := rfl

lemma comp_succ_goodPair (l : List Char) (ls : List (List Char)) (f : Nat) :
    ((fun j => decide (goodPair (l :: ls) j (f + 1))) ∘ Nat.succ)
      = fun j => decide (goodPair ls j f) := by
  funext j
  simp [Function.comp, Nat.succ_eq_add_one, goodPair_succ_succ]

lemma gpEntry_succ_of_not_desc {l : List Char} {ls : List (List Char)}
    (hd : descL l = false) (f : Nat) :
    gpEntry (l :: ls) (f + 1) = (gpEntry ls f).map bump := by
  unfold gpEntry
  have h0 : ¬((fun j => decide (goodPair (l :: ls) j (f + 1))) 0 = true) := by
    simp only [decide_eq_true_eq]
    intro hgp
    have := hgp.2.2.1
    rw [List.getD_cons_zero, hd] at this
    cases this
  rw [List.range_succ_eq_map,
    @List.find?_cons_of_neg _ (fun j => decide (goodPair (l :: ls) j (f + 1)))
      0 (List.map Nat.succ (List.range f)) h0,
    List.find?_map, comp_succ_goodPair, Option.map_map, Option.map_map]
  rfl

lemma gpEntry_succ_of_desc {l : List Char} {ls : List (List Char)}
    (hd : descL l = true) (f : Nat) :
    gpEntry (l :: ls) (f + 1) =
      if pendFrame ls = some f then some (0, f + 1)
      else (gpEntry ls f).map bump := by
  unfold gpEntry
  rw [List.range_succ_eq_map]
  by_cases hp : pendFrame ls = some f
  · have h0 : (fun j => decide (goodPair (l :: ls) j (f + 1))) 0 = true := by
      simp only [decide_eq_true_eq]
      exact (goodPair_zero hd).mpr hp
    rw [if_pos hp,
      @List.find?_cons_of_pos _ (fun j => decide (goodPair (l :: ls) j (f + 1)))
        0 (List.map Nat.succ (List.range f)) h0]
    rfl
  · have h0 : ¬((fun j => decide (goodPair (l :: ls) j (f + 1))) 0 = true) := by
      simp only [decide_eq_true_eq]
      intro hgp
      exact hp ((goodPair_zero hd).mp hgp)
    rw [if_neg hp,
      @List.find?_cons_of_neg _ (fun j => decide (goodPair (l :: ls) j (f + 1)))
        0 (List.map Nat.succ (List.range f)) h0,
      List.find?_map, comp_succ_goodPair, Option.map_map, Option.map_map]
    rfl

lemma filterMap_range_split {α : Type} (G : Nat → Option α) (f₀ k : Nat) (b : α)
    (hbefore : ∀ f < f₀, G f = none) (hat : G f₀ = some b) :
    List.filterMap G (List.range ((f₀ + 1) + k)) =
      b :: List.filterMap (fun x => G ((f₀ + 1) + x)) (List.range k) := by
  rw [List.range_add, List.filterMap_append, List.range_succ,
    List.filterMap_append, List.filterMap_map]
  have h1 : List.filterMap G (List.range f₀) = [] := by
    rw [List.filterMap_eq_nil_iff]
    intro f hf
    exact hbefore f (List.mem_range.mp hf)
  rw [h1, List.nil_append, List.filterMap_cons_some hat, List.filterMap_nil]
  rfl

lemma filterMap_range_skip {α : Type} (G : Nat → Option α) (f₀ k : Nat)
    (hbefore : ∀ f ≤ f₀, G f = none) :
    List.filterMap G (List.range ((f₀ + 1) + k)) =
      List.filterMap (fun x => G ((f₀ + 1) + x)) (List.range k) := by
  rw [List.range_add, List.filterMap_append, List.filterMap_map]
  have h1 : List.filterMap G (List.range (f₀ + 1)) = [] := by
    rw [List.filterMap_eq_nil_iff]
    intro f hf
    have := List.mem_range.mp hf
    exact hbefore f (by omega)
  rw [h1, List.nil_append]
  rfl

lemma goodPairs_cons_of_not_desc (l : List Char) (ls : List (List Char))
    (hd : descL l = false) :
    goodPairs (l :: ls) = (goodPairs ls).map bump := by
  unfold goodPairs
  rw [List.length_cons, List.range_succ_eq_map,
    List.filterMap_cons_none (gpEntry_zero (l :: ls)), List.filterMap_map,
    List.map_filterMap]
  congr 1
  funext f
  simpa [Function.comp, Nat.succ_eq_add_one] using gpEntry_succ_of_not_desc hd f

lemma goodPairs_cons_of_desc (l : List Char) (ls : List (List Char))
    (hd : descL l = true) :
    goodPairs (l :: ls) =
      (match pendFrame ls with
        | some f₀ => [(0, f₀ + 1)]
        | none => []) ++ (goodPairs ls).map bump := by
  unfold goodPairs
  rw [List.length_cons, List.range_succ_eq_map,
    List.filterMap_cons_none (gpEntry_zero (l :: ls)), List.filterMap_map]
  cases hp : pendFrame ls with
  | none =>
    rw [List.nil_append, List.map_filterMap]
    have he : (gpEntry (l :: ls) ∘ Nat.succ)
        = fun f => (gpEntry ls f).map bump := by
      funext f
      have h := @gpEntry_succ_of_desc l ls hd f
      rw [hp, if_neg (by simp)] at h
      simpa [Function.comp, Nat.succ_eq_add_one] using h
    rw [he]
  | some f₀ =>
    obtain ⟨hlt, hfr, hneu⟩ := pendFrame_eq_some.mp hp
    obtain ⟨k, hk⟩ : ∃ k, ls.length = (f₀ + 1) + k :=
      ⟨ls.length - (f₀ + 1), by omega⟩
    rw [hk]
    have hb : ∀ f < f₀, (gpEntry (l :: ls) ∘ Nat.succ) f = none := by
      intro f hf
      show gpEntry (l :: ls) (Nat.succ f) = none
      rw [Nat.succ_eq_add_one, gpEntry_succ_of_desc hd f,
        if_neg (by rw [hp]; simp; omega)]
      unfold gpEntry
      rw [find?_goodPair_none (fun j hj => hneu j (by omega))]
      rfl
    have ha : (gpEntry (l :: ls) ∘ Nat.succ) f₀ = some (0, f₀ + 1) := by
      show gpEntry (l :: ls) (Nat.succ f₀) = some (0, f₀ + 1)
      rw [Nat.succ_eq_add_one, gpEntry_succ_of_desc hd f₀, if_pos hp]
    rw [filterMap_range_split _ f₀ k (0, f₀ + 1) hb ha]
    have hskip : ∀ f ≤ f₀, gpEntry ls f = none := by
      intro f hf
      unfold gpEntry
      rw [find?_goodPair_none (fun j hj => hneu j (by omega))]
      rfl
    rw [filterMap_range_skip (gpEntry ls) f₀ k hskip, List.map_filterMap]
    simp only [List.cons_append, List.nil_append]
    have he : (fun x => (gpEntry (l :: ls) ∘ Nat.succ) ((f₀ + 1) + x))
        = fun x => (gpEntry ls ((f₀ + 1) + x)).map bump := by
      funext x
      show gpEntry (l :: ls) (Nat.succ ((f₀ + 1) + x))
        = (gpEntry ls ((f₀ + 1) + x)).map bump
      rw [Nat.succ_eq_add_one, @gpEntry_succ_of_desc l ls hd ((f₀ + 1) + x),
        if_neg (by rw [hp]; simp; omega)]
    rw [he]

lemma goodPairs_sound {ls : List (List Char)} {jf : Nat × Nat}
    (h : jf ∈ goodPairs ls) : goodPair ls jf.1 jf.2 := by
  unfold goodPairs gpEntry at h
  rw [List.mem_filterMap] at h
  obtain ⟨f, hf, hent⟩ := h
  rw [Option.map_eq_some'] at hent
  obtain ⟨j, hfind, hjf⟩ := hent
  have hp := List.find?_some hfind
  rw [decide_eq_true_eq] at hp
  rw [← hjf]
  exact hp

lemma goodPair_unique {ls : List (List Char)} {j j' f : Nat}
    (h1 : goodPair ls j f) (h2 : goodPair ls j' f) : j = j' := by
  by_contra hne
  rcases Nat.lt_or_ge j j' with hlt | hge
  · have hd := h2.2.2.1
    have hneu := h1.2.2.2.2 j' h2.1 hlt
    rw [(neutralL_iff.mp hneu).1] at hd
    cases hd
  · have hlt : j' < j := by omega
    have hd := h1.2.2.1
    have hneu := h2.2.2.2.2 j h1.1 hlt
    rw [(neutralL_iff.mp hneu).1] at hd
    cases hd

lemma goodPairs_complete {ls : List (List Char)} {j f : Nat}
    (h : goodPair ls j f) : (j, f) ∈ goodPairs ls := by
  unfold goodPairs gpEntry
  rw [List.mem_filterMap]
  refine ⟨f, List.mem_range.mpr h.2.1, ?_⟩
  have hsome : ((List.range f).find?
      (fun j => decide (goodPair ls j f))).isSome = true := by
    rw [List.find?_isSome]
    exact ⟨j, List.mem_range.mpr h.1, decide_eq_true h⟩
  obtain ⟨j', hj'⟩ := Option.isSome_iff_exists.mp hsome
  have hpj' : goodPair ls j' f := by
    have := List.find?_some hj'
    rwa [decide_eq_true_eq] at this
  rw [hj', goodPair_unique hpj' h]
  rfl

lemma goodPairs_first_after {ls : List (List Char)} {f₀ : Nat}
    (hp : pendFrame ls = some f₀) :
    ∀ q ∈ goodPairs ls, f₀ < q.1 := by
  intro q hq
  have hgp := goodPairs_sound hq
  obtain ⟨hlen, hfr, hneu⟩ := pendFrame_eq_some.mp hp
  rcases Nat.lt_trichotomy q.1 f₀ with h | h | h
  · have hd := hgp.2.2.1
    rw [(neutralL_iff.mp (hneu q.1 h)).1] at hd
    cases hd
  · have hd := hgp.2.2.1
    rw [h, frameL_descL hfr] at hd
    cases hd
  · exact h

lemma goodPairs_pairwise (ls : List (List Char)) :
    List.Pairwise (fun a b : Nat × Nat => a.2 < b.1) (goodPairs ls) := by
  induction ls with
  | nil => exact List.Pairwise.nil
  | cons l ls ih =>
    by_cases hd : descL l = true
    · rw [goodPairs_cons_of_desc l ls hd]
      cases hp : pendFrame ls with
      | none =>
        rw [List.nil_append, List.pairwise_map]
        exact ih.imp (fun hab => by simp only [bump]; omega)
      | some f₀ =>
        rw [List.cons_append, List.nil_append]
        constructor
        · intro q hq
          rw [List.mem_map] at hq
          obtain ⟨q', hq', rfl⟩ := hq
          have := goodPairs_first_after hp q' hq'
          simp only [bump]
          omega
        · rw [List.pairwise_map]
          exact ih.imp (fun hab => by simp only [bump]; omega)
    · have hd' : descL l = false := by
        cases hb : descL l with
        | false => rfl
        | true => exact absurd hb hd
      rw [goodPairs_cons_of_not_desc l ls hd', List.pairwise_map]
      exact ih.imp (fun hab => by simp only [bump]; omega)

lemma forall₂_bump {l : List Char} {ls : List (List Char)}
    {ps : List Product} {pw : List (Nat × Nat)}
    (h : List.Forall₂ (lineR ls) ps pw) :
    List.Forall₂ (lineR (l :: ls)) ps (pw.map bump) := by
  rw [List.forall₂_map_right_iff]
  refine h.imp ?_
  intro r q hq
  obtain ⟨g1, g2, w, hv, h1, h2, h3, h4, h5⟩ := hq
  exact ⟨g1, g2, w, hv,
    by simpa [bump, List.getD_cons_succ] using h1,
    by simpa [bump, List.getD_cons_succ] using h2,
    by simpa [bump, List.getD_cons_succ] using h3,
    by simpa [bump, List.getD_cons_succ] using h4,
    by simpa [bump, List.getD_cons_succ] using h5⟩

/-- The full characterisation of the scan: on a successful run the emitted
records correspond one-to-one, in order, to the `goodPair` pairings of the
input (preceded, when the scan starts with a pending description, by one
record for that pending value and the first frame line, when the first
non-neutral line is a frame line). -/
lemma scan_pairs (ls : List (List Char)) :
    ∀ (p : Option (String × String)) (ps : List Product),
      scanServer ls p = Except.ok ps →
      (match p with
       | none => List.Forall₂ (lineR ls) ps (goodPairs ls)
       | some pd =>
         match pendFrame ls with
         | some f₀ => ∃ r ps', ps = r :: ps' ∧ pendR ls pd f₀ r ∧
             List.Forall₂ (lineR ls) ps' (goodPairs ls)
         | none => List.Forall₂ (lineR ls) ps (goodPairs ls)) := by
  induction ls with
  | nil =>
    intro p ps h
    rw [scanServer_nil] at h
    have hps : ps = [] := (Except.ok.inj h).symm
    subst hps
    cases p with
    | none => exact List.Forall₂.nil
    | some pd => exact List.Forall₂.nil
  | cons l ls ih =>
    intro p ps h
    cases hm : descMatch l with
    | some g =>
      obtain ⟨g1, g2⟩ := g
      have hd : descL l = true := by simp [descL, hm]
      rw [scan_desc l ls p hm] at h
      have IH := ih
        (some (String.mk (pyStrip g1) ++ " Series", String.mk (pyStrip g2)))
        ps h
      have hpf : pendFrame (l :: ls) = none := by
        have hn : neutralL l = false := by simp [neutralL, hd]
        have hf : frameL l = false := descL_frameL hd
        rw [pendFrame, if_neg (by simp [hn]), if_neg (by simp [hf])]
      have goal0 : List.Forall₂ (lineR (l :: ls)) ps (goodPairs (l :: ls)) := by
        rw [goodPairs_cons_of_desc l ls hd]
        cases hp : pendFrame ls with
        | some f₀ =>
          rw [hp] at IH
          obtain ⟨r, ps', hps, hpr, hfa⟩ := IH
          subst hps
          rw [List.cons_append, List.nil_append]
          constructor
          · obtain ⟨w, hv, hfr, hw, hh, hr⟩ := hpr
            exact ⟨g1, g2, w, hv,
              by simpa [List.getD_cons_zero] using hm,
              by simpa [List.getD_cons_succ] using hfr,
              by simpa [List.getD_cons_succ] using hw,
              by simpa [List.getD_cons_succ] using hh,
              by simpa [List.getD_cons_succ] using hr⟩
          · exact forall₂_bump hfa
        | none =>
          rw [hp] at IH
          rw [List.nil_append]
          exact forall₂_bump IH
      cases p with
      | none => exact goal0
      | some pd => rw [hpf]; exact goal0
    | none =>
      have hd : descL l = false := by simp [descL, hm]
      cases p with
      | none =>
        have hstep : scanServer (l :: ls) none = scanServer ls none := by
          by_cases he : l.isEmpty = true
          · exact scan_step_empty l ls none he
          · have he' : l.isEmpty = false := by
              cases hb : l.isEmpty with
              | false => rfl
              | true => exact absurd hb he
            exact scan_step_skip l ls he' hm
        rw [hstep] at h
        have IH := ih none ps h
        rw [goodPairs_cons_of_not_desc l ls hd]
        exact forall₂_bump IH
      | some pd =>
        by_cases hf : frameL l = true
        · have hne : l.isEmpty = false :=
            frame_isEmpty (by simpa [frameL] using hf)
          rw [scan_step_frame l ls pd hne hm (by simpa [frameL] using hf)] at h
          cases hnw : numField widthLit l with
          | error e => rw [hnw] at h; cases h
          | ok w =>
            rw [hnw] at h
            cases hnh : numField heightLit l with
            | error e => rw [hnh] at h; cases h
            | ok hv =>
              rw [hnh] at h
              cases hrec : scanServer ls none with
              | error e => rw [hrec] at h; cases h
              | ok rest =>
                rw [hrec] at h
                have hps : ps = _ :: rest := (Except.ok.inj h).symm
                have IH := ih none rest hrec
                have hpf : pendFrame (l :: ls) = some 0 := by
                  have hn : neutralL l = false := by simp [neutralL, hf]
                  rw [pendFrame, if_neg (by simp [hn]), if_pos hf]
                rw [hpf]
                refine ⟨⟨"CWS", String.mk (pyStrip (afterLastComma l)),
                  pd.1, pd.2, w, hv⟩, rest, hps, ?_, ?_⟩
                · exact ⟨w, hv, by simpa [List.getD_cons_zero] using hf,
                    by simpa [List.getD_cons_zero] using hnw,
                    by simpa [List.getD_cons_zero] using hnh, rfl⟩
                · rw [goodPairs_cons_of_not_desc l ls hd]
                  exact forall₂_bump IH
        · have hf' : frameL l = false := by
            cases hb : frameL l with
            | false => rfl
            | true => exact absurd hb hf
          have hstep : scanServer (l :: ls) (some pd) =
              scanServer ls (some pd) := by
            by_cases he : l.isEmpty = true
            · exact scan_step_empty l ls (some pd) he
            · have he' : l.isEmpty = false := by
                cases hb : l.isEmpty with
                | false => rfl
                | true => exact absurd hb he
              exact scan_step_noframe l ls pd he' hm
                (by simpa [frameL] using hf')
          rw [hstep] at h
          have IH := ih (some pd) ps h
          have hn : neutralL l = true := by simp [neutralL, hd, hf']
          have hpf : pendFrame (l :: ls) = (pendFrame ls).map (· + 1) := by
            rw [pendFrame, if_pos hn]
          rw [hpf]
          cases hp : pendFrame ls with
          | some f₀ =>
            rw [hp] at IH
            obtain ⟨r, ps', hps, hpr, hfa⟩ := IH
            simp only [Option.map_some']
            refine ⟨r, ps', hps, ?_, ?_⟩
            · obtain ⟨w, hv, h1, h2, h3, h4⟩ := hpr
              exact ⟨w, hv, by simpa [List.getD_cons_succ] using h1,
                by simpa [List.getD_cons_succ] using h2,
                by simpa [List.getD_cons_succ] using h3,
                by simpa [List.getD_cons_succ] using h4⟩
            · rw [goodPairs_cons_of_not_desc l ls hd]
              exact forall₂_bump hfa
          | none =>
            rw [hp] at IH
            simp only [Option.map_none']
            rw [goodPairs_cons_of_not_desc l ls hd]
            exact forall₂_bump IH

lemma pendingAfter_nil (p : Option (String × String)) :
    pendingAfter [] p = p := rfl

lemma pendingAfter_cons (l : List Char) (ls : List (List Char))
    (p : Option (String × String)) :
    pendingAfter (l :: ls) p =
      if l.isEmpty then pendingAfter ls p
      else
        match descMatch l with
        | some g =>
          pendingAfter ls
            (some (String.mk (pyStrip g.1) ++ " Series", String.mk (pyStrip g.2)))
        | none =>
          match p with
          | some _ =>
            if List.isPrefixOf frameLit l then pendingAfter ls none
            else pendingAfter ls p
          | none => pendingAfter ls p := rfl

/-- A frame line reached with an empty pending slot contributes nothing:
deleting it from the line sequence leaves the scan's result unchanged. -/
lemma scan_erase_frame {fl : List Char}
    (hfp : List.isPrefixOf frameLit fl = true) (ls₁ : List (List Char)) :
    ∀ (p : Option (String × String)) (ls₂ : List (List Char)),
      pendingAfter ls₁ p = none →
      scanServer (ls₁ ++ fl :: ls₂) p = scanServer (ls₁ ++ ls₂) p := by
  induction ls₁ with
  | nil =>
    intro p ls₂ hp
    rw [pendingAfter_nil] at hp
    subst hp
    simp only [List.nil_append]
    exact scan_step_skip fl ls₂ (frame_isEmpty hfp) (descMatch_frame hfp)
  | cons l ls₁ ih =>
    intro p ls₂ hp
    simp only [List.cons_append]
    by_cases he : l.isEmpty = true
    · rw [scan_step_empty _ _ _ he, scan_step_empty _ _ _ he]
      apply ih
      rw [pendingAfter_cons, if_pos he] at hp
      exact hp
    · have he' : l.isEmpty = false := by
        cases hb : l.isEmpty with
        | false => rfl
        | true => exact absurd hb he
      cases hm : descMatch l with
      | some g =>
        obtain ⟨g1, g2⟩ := g
        rw [scan_desc l _ _ hm, scan_desc l _ _ hm]
        apply ih
        rw [pendingAfter_cons, if_neg (by simp [he']), hm] at hp
        exact hp
      | none =>
        cases p with
        | none =>
          rw [scan_step_skip l _ he' hm, scan_step_skip l _ he' hm]
          apply ih
          rw [pendingAfter_cons, if_neg (by simp [he']), hm] at hp
          exact hp
        | some pd =>
          by_cases hf : List.isPrefixOf frameLit l = true
          · rw [scan_step_frame l _ pd he' hm hf,
              scan_step_frame l _ pd he' hm hf]
            have hp' : pendingAfter ls₁ none = none := by
              rw [pendingAfter_cons, if_neg (by simp [he']), hm] at hp
              simpa [hf] using hp
            rw [ih none ls₂ hp']
          · have hf' : List.isPrefixOf frameLit l = false := by
              cases hb : List.isPrefixOf frameLit l with
              | false => rfl
              | true => exact absurd hb hf
            rw [scan_step_noframe l _ pd he' hm hf',
              scan_step_noframe l _ pd he' hm hf']
            apply ih
            rw [pendingAfter_cons, if_neg (by simp [he']), hm] at hp
            simpa [hf'] using hp

/-- C1 (evidence of the failure): the extractor does not always return
normally.  On a matched frame line whose `([\d\.]+)` capture is not a
parseable number — here `Width = 1.2.3` — the Python code reaches
`float('1.2.3')`, which raises `ValueError` instead of degrading the field
to null, so the whole call aborts (`Except.error ()` in this model). -/
theorem extractor_raises_on_unparseable_number :
    parse_products_from_text
      "7300 Series Direct Set Half Round 73 x 36 1/2 - FLANGE\nFrame: Width = 1.2.3, Bronze"
      = Except.error () := by decide

/-- C3: the number of emitted records is at most the number of stripped
lines matching the description pattern, and a record is emitted exactly
when a description match is followed by a frame line with no intervening
description match (which would overwrite the pending slot) and no
intervening frame line (the slot is cleared on emission): the emitted
records correspond one-to-one, in order, to the `goodPair` pairings
(series and style from the paired description line, colour, width, height
from the paired frame line), the pairing list contains exactly the index
pairs satisfying the declarative condition `goodPair`, and the pairs are
strictly interleaved, so each pending description is consumed by at most
one frame line and each frame line consumes at most one pending
description. -/
theorem records_le_desc_matches (t : String) (ps : List Product)
    (h : parse_products_from_text t = Except.ok ps) :
    ps.length ≤ (strippedLines t).countP (fun l => (descMatch l).isSome) ∧
    List.Forall₂ (lineR (strippedLines t)) ps (goodPairs (strippedLines t)) ∧
    (∀ jf ∈ goodPairs (strippedLines t),
      goodPair (strippedLines t) jf.1 jf.2) ∧
    (∀ j f, goodPair (strippedLines t) j f →
      (j, f) ∈ goodPairs (strippedLines t)) ∧
    List.Pairwise (fun a b : Nat × Nat => a.2 < b.1)
      (goodPairs (strippedLines t)) := by
  refine ⟨?_, ?_, fun jf hjf => goodPairs_sound hjf,
    fun j f hg => goodPairs_complete hg, goodPairs_pairwise _⟩
  · have := scan_count (strippedLines t) none ps h
    simpa using this
  · exact scan_pairs (strippedLines t) none ps h

/-- Witness for C3: an input with two description matches and one frame
line emits one record, within the bound and corresponding to the single
pairing. -/
theorem records_le_desc_matches_witness :
    (([⟨"CWS", "Red", "7300 Series", "A", some (mkRat 1 1), none⟩] :
        List Product).length ≤
      (strippedLines
        "7300 Series A 1 x 2 -\nFrame: Width = 1, Red\n9999 Series B 3 x 4 -").countP
        (fun l => (descMatch l).isSome)) ∧
    List.Forall₂
      (lineR (strippedLines
        "7300 Series A 1 x 2 -\nFrame: Width = 1, Red\n9999 Series B 3 x 4 -"))
      [⟨"CWS", "Red", "7300 Series", "A", some (mkRat 1 1), none⟩]
      (goodPairs (strippedLines
        "7300 Series A 1 x 2 -\nFrame: Width = 1, Red\n9999 Series B 3 x 4 -")) ∧
    (∀ jf ∈ goodPairs (strippedLines
        "7300 Series A 1 x 2 -\nFrame: Width = 1, Red\n9999 Series B 3 x 4 -"),
      goodPair (strippedLines
        "7300 Series A 1 x 2 -\nFrame: Width = 1, Red\n9999 Series B 3 x 4 -")
        jf.1 jf.2) ∧
    (∀ j f, goodPair (strippedLines
        "7300 Series A 1 x 2 -\nFrame: Width = 1, Red\n9999 Series B 3 x 4 -")
        j f →
      (j, f) ∈ goodPairs (strippedLines
        "7300 Series A 1 x 2 -\nFrame: Width = 1, Red\n9999 Series B 3 x 4 -")) ∧
    List.Pairwise (fun a b : Nat × Nat => a.2 < b.1)
      (goodPairs (strippedLines
        "7300 Series A 1 x 2 -\nFrame: Width = 1, Red\n9999 Series B 3 x 4 -")) :=
  records_le_desc_matches
    "7300 Series A 1 x 2 -\nFrame: Width = 1, Red\n9999 Series B 3 x 4 -"
    [⟨"CWS", "Red", "7300 Series", "A", some (mkRat 1 1), none⟩] (by decide)

/-- C5: a frame line reached while no description is pending — because no
description match preceded it, or because the previous pending was already
consumed — contributes no record and causes no error: the result equals
the scan of the input with that frame line deleted (`pendingAfter`, the
pending slot's state function, expresses "no description is pending" at
that line); in particular an input consisting only of frame lines yields
the empty sequence. -/
theorem frame_without_pending_ignored :
    (∀ (t : String) (ls₁ : List (List Char)) (fl : List Char)
        (ls₂ : List (List Char)),
      strippedLines t = ls₁ ++ fl :: ls₂ →
      List.isPrefixOf frameLit fl = true →
      pendingAfter ls₁ none = none →
      parse_products_from_text t = scanServer (ls₁ ++ ls₂) none) ∧
    (∀ (t : String),
      (∀ l ∈ strippedLines t, l = [] ∨ List.isPrefixOf frameLit l = true) →
      parse_products_from_text t = Except.ok []) := by
  constructor
  · intro t ls₁ fl ls₂ hsplit hfp hpend
    unfold parse_products_from_text
    rw [hsplit]
    exact scan_erase_frame hfp ls₁ none ls₂ hpend
  · intro t h
    unfold parse_products_from_text
    apply scan_nodesc
    intro l hl
    rcases h l hl with rfl | hf
    · exact descMatch_nil
    · exact descMatch_frame hf

/-- Witness for C5: in a description, frame, frame input the second frame
line arrives after the pending description was consumed and contributes
nothing; and an input consisting only of frame lines yields the empty
sequence. -/
theorem frame_without_pending_ignored_witness :
    (parse_products_from_text
        "7300 Series A 1 x 2 -\nFrame: Width = 1, Red\nFrame: Width = 2, Blue"
      = scanServer
          ["7300 Series A 1 x 2 -".data, "Frame: Width = 1, Red".data] none) ∧
    parse_products_from_text "Frame: Width = 1, Red\nFrame: Width = 2, Blue"
      = Except.ok [] := by
  constructor
  · exact frame_without_pending_ignored.1
      "7300 Series A 1 x 2 -\nFrame: Width = 1, Red\nFrame: Width = 2, Blue"
      ["7300 Series A 1 x 2 -".data, "Frame: Width = 1, Red".data]
      "Frame: Width = 2, Blue".data []
      (by decide) (by decide) (by decide)
  · exact frame_without_pending_ignored.2
      "Frame: Width = 1, Red\nFrame: Width = 2, Blue" (by decide)

/-- C6: a paired frame line containing a parseable `Width =` number but no
occurrence of `Height =` still yields a record, with Height null and Width
the parsed value — and symmetrically for a missing `Width =`. -/
theorem missing_dimension_yields_null :
    (∀ (t : String) (dl fl g1 g2 gw : List Char) (qw : ℚ),
      strippedLines t = [dl, fl] → descMatch dl = some (g1, g2) →
      List.isPrefixOf frameLit fl = true →
      searchNum widthLit fl = some gw → parseFloat gw = some qw →
      hasSub heightLit fl = false →
      parse_products_from_text t =
        Except.ok [⟨"CWS", String.mk (pyStrip (afterLastComma fl)),
          String.mk (pyStrip g1) ++ " Series", String.mk (pyStrip g2),
          some qw, none⟩]) ∧
    (∀ (t : String) (dl fl g1 g2 gh : List Char) (qh : ℚ),
      strippedLines t = [dl, fl] → descMatch dl = some (g1, g2) →
      List.isPrefixOf frameLit fl = true →
      hasSub widthLit fl = false →
      searchNum heightLit fl = some gh → parseFloat gh = some qh →
      parse_products_from_text t =
        Except.ok [⟨"CWS", String.mk (pyStrip (afterLastComma fl)),
          String.mk (pyStrip g1) ++ " Series", String.mk (pyStrip g2),
          none, some qh⟩]) := by
  constructor
  · intro t dl fl g1 g2 gw qw hsplit hd hfp hw hwq hnoh
    have hwf : numField widthLit fl = Except.ok (some qw) := by
      simp [numField, hw, hwq]
    have hhf : numField heightLit fl = Except.ok none := by
      simp [numField, searchNum_eq_none _ hnoh]
    unfold parse_products_from_text
    rw [hsplit, scan_two hd hfp hwf hhf]
  · intro t dl fl g1 g2 gh qh hsplit hd hfp hnow hh hhq
    have hwf : numField widthLit fl = Except.ok none := by
      simp [numField, searchNum_eq_none _ hnow]
    have hhf : numField heightLit fl = Except.ok (some qh) := by
      simp [numField, hh, hhq]
    unfold parse_products_from_text
    rw [hsplit, scan_two hd hfp hwf hhf]

/-- Witness for C6: a frame line with only `Width =` yields Height null;
one with only `Height =` yields Width null. -/
theorem missing_dimension_yields_null_witness :
    parse_products_from_text
      "7300 Series Direct Set Half Round 73 x 36 1/2 - FLANGE\nFrame: Width = 12.5, Red"
      = Except.ok [⟨"CWS", "Red", "7300 Series", "Direct Set Half Round",
          some (mkRat 25 2), none⟩] ∧
    parse_products_from_text
      "7300 Series Direct Set Half Round 73 x 36 1/2 - FLANGE\nFrame: Height = 4, Blue"
      = Except.ok [⟨"CWS", "Blue", "7300 Series", "Direct Set Half Round",
          none, some (mkRat 4 1)⟩] := by
  constructor
  · have h := missing_dimension_yields_null.1
      "7300 Series Direct Set Half Round 73 x 36 1/2 - FLANGE\nFrame: Width = 12.5, Red"
      "7300 Series Direct Set Half Round 73 x 36 1/2 - FLANGE".data
      "Frame: Width = 12.5, Red".data
      "7300".data "Direct Set Half Round".data "12.5".data (mkRat 25 2)
      (by decide) (by decide) (by decide) (by decide) (by decide) (by decide)
    exact h.trans (by decide)
  · have h := missing_dimension_yields_null.2
      "7300 Series Direct Set Half Round 73 x 36 1/2 - FLANGE\nFrame: Height = 4, Blue"
      "7300 Series Direct Set Half Round 73 x 36 1/2 - FLANGE".data
      "Frame: Height = 4, Blue".data
      "7300".data "Direct Set Half Round".data "4".data (mkRat 4 1)
      (by decide) (by decide) (by decide) (by decide) (by decide) (by decide)
    exact h.trans (by decide)

/-- C7: each emitted record's Frame Color is the trimmed last
comma-segment of its own paired frame line — the frame component of the
corresponding `goodPair` pairing, record by record, in order — and a frame
line whose trailing comma segment is empty still yields its record, with
the empty string as Frame Color. -/
theorem frame_color_last_segment :
    (∀ (t : String) (ps : List Product),
      parse_products_from_text t = Except.ok ps →
      List.Forall₂
        (fun (r : Product) (jf : Nat × Nat) =>
          frameL ((strippedLines t).getD jf.2 []) = true ∧
          r.frameColor = String.mk
            (pyStrip (afterLastComma ((strippedLines t).getD jf.2 []))))
        ps (goodPairs (strippedLines t))) ∧
    (∀ (t : String) (jf : Nat × Nat), jf ∈ goodPairs (strippedLines t) →
      goodPair (strippedLines t) jf.1 jf.2) ∧
    parse_products_from_text
      "7300 Series Direct Set Half Round 73 x 36 1/2 - FLANGE\nFrame: Width = 5, Height = 6,   "
      = Except.ok [⟨"CWS", "", "7300 Series", "Direct Set Half Round",
          some (mkRat 5 1), some (mkRat 6 1)⟩] := by
  refine ⟨?_, fun t jf hjf => goodPairs_sound hjf, by decide⟩
  intro t ps h
  have hfa := scan_pairs (strippedLines t) none ps h
  refine hfa.imp ?_
  intro r jf hr
  obtain ⟨g1, g2, w, hv, h1, h2, h3, h4, h5⟩ := hr
  exact ⟨h2, by rw [h5]⟩

/-- Witness for C7: the spec-example record pairs with its own frame line
and takes Bronze, that line's trimmed last comma-segment, as its colour. -/
theorem frame_color_last_segment_witness :
    List.Forall₂
      (fun (r : Product) (jf : Nat × Nat) =>
        frameL ((strippedLines
          "7300 Series Direct Set Half Round 73 x 36 1/2 - FLANGE\nFrame: Width = 73, Height = 36.5, Radius = 36.5, Bronze").getD
            jf.2 []) = true ∧
        r.frameColor = String.mk (pyStrip (afterLastComma ((strippedLines
          "7300 Series Direct Set Half Round 73 x 36 1/2 - FLANGE\nFrame: Width = 73, Height = 36.5, Radius = 36.5, Bronze").getD
            jf.2 []))))
      [⟨"CWS", "Bronze", "7300 Series", "Direct Set Half Round",
        some (mkRat 73 1), some (mkRat 73 2)⟩]
      (goodPairs (strippedLines
        "7300 Series Direct Set Half Round 73 x 36 1/2 - FLANGE\nFrame: Width = 73, Height = 36.5, Radius = 36.5, Bronze")) :=
  frame_color_last_segment.1
    "7300 Series Direct Set Half Round 73 x 36 1/2 - FLANGE\nFrame: Width = 73, Height = 36.5, Radius = 36.5, Bronze"
    [⟨"CWS", "Bronze", "7300 Series", "Direct Set Half Round",
      some (mkRat 73 1), some (mkRat 73 2)⟩]
    (by decide)

/-- C8: the empty input yields the empty sequence with no error, and more
generally any input all of whose stripped lines are empty yields the empty
sequence. -/
theorem empty_input_empty_output :
    parse_products_from_text "" = Except.ok [] ∧
    ∀ (t : String), (∀ l ∈ strippedLines t, l = []) →
      parse_products_from_text t = Except.ok [] := by
  refine ⟨rfl, ?_⟩
  intro t h
  unfold parse_products_from_text
  apply scan_nodesc
  intro l hl
  rw [h l hl]
  exact descMatch_nil

/-- Witness for C8: whitespace-only input yields the empty sequence. -/
theorem empty_input_empty_output_witness :
    parse_products_from_text "  \n\t\n " = Except.ok [] :=
  empty_input_empty_output.2 "  \n\t\n " (by decide)

/-- C9: the scan of `parse_products_from_text` (`server.py`) and the
text-scanning portion of `extract_invoice_data` (`app.py`) compute the
same function of the input text: equal record sequences (or the same
error) on every input. -/
theorem duplicated_scans_agree (t : String) :
    parse_products_from_text t = extract_invoice_data_scan t :=
  (scanApp_eq_scanServer (strippedLines t) none).symm

/-- C10: the description pattern is case-insensitive over the whole
pattern: a line with lowercase `series` matches identically to one with
`Series`, and an uppercase `X` dimension separator also matches and yields
the same extracted record. -/
theorem desc_pattern_case_insensitive :
    descMatch "7300 series Direct Set Half Round 73 x 36 1/2 - FLANGE".data
      = descMatch "7300 Series Direct Set Half Round 73 x 36 1/2 - FLANGE".data
    ∧ (descMatch
        "7300 Series Direct Set Half Round 73 x 36 1/2 - FLANGE".data).isSome
      = true
    ∧ descMatch "7300 Series Direct Set Half Round 73 X 36 1/2 - FLANGE".data
      = descMatch "7300 Series Direct Set Half Round 73 x 36 1/2 - FLANGE".data
    ∧ parse_products_from_text
        "7300 series Direct Set Half Round 73 X 36 1/2 - FLANGE\nFrame: Width = 73, Height = 36.5, Radius = 36.5, Bronze"
      = parse_products_from_text
        "7300 Series Direct Set Half Round 73 x 36 1/2 - FLANGE\nFrame: Width = 73, Height = 36.5, Radius = 36.5, Bronze" :=
  ⟨by decide, by decide, by decide, by decide⟩
